import Mathlib

/-!
Verification of the DNS-analytics ingestion/enrichment pipeline
(notebook `01_DNS_Analytics_Ingest.py`).

The pipeline has four parts:
* a domain/suffix extractor (`domain_extract`), declared in the shared
  include notebook (not part of the ingest file), modelled here from the
  specification;
* the Bronze Loader: newline-delimited JSON pDNS records, a derived
  `rdatastr` column built with `concat_ws`, written with
  `mode("overwrite")` and `mergeSchema` true;
* the Threat-Feed Enricher: `select *, domain_extract(url) as domain`
  filtered on `char_length(domain) >= 2`, written overwrite with
  `mergeSchema` true;
* the Brand-Twist Enricher: `select *, domain_extract(domain) as
  dnstwisted_domain` filtered on `char_length(dnstwisted_domain) >= 2`,
  written overwrite with `mergeSchema` false.
-/

namespace DNSAnalytics

/-! ### Domain/suffix extractor (modelled from the spec)

The user-defined function `domain_extract` is declared in the
`00_Shared_Include` notebook, which is not among the source files; the
definitions below are modelled from the specification: the extractor maps
a URL or bare hostname to the registered domain (eTLD+1), tolerating a
missing scheme and trailing paths/query strings, returning an empty
string instead of raising, and deciding suffixes by a bundled static
public-suffix list. -/

/-- Modelled from the spec: scan for the first `://` occurrence; when found,
return what follows it. Part of the missing `00_Shared_Include` extractor. -/
def findSchemeRest : List Char → Option (List Char)
  | ':' :: '/' :: '/' :: rest => some rest
  | _ :: rest => findSchemeRest rest
  | [] => none

/-- Modelled from the spec: drop a leading `scheme://` when present,
otherwise keep the input unchanged (the extractor must tolerate a missing
scheme). -/
def dropScheme (l : List Char) : List Char :=
  match findSchemeRest l with
  | some rest => rest
  | none => l

/-- Modelled from the spec: keep the host part, cutting at the first
path, query or fragment delimiter. -/
def hostChars (l : List Char) : List Char :=
  l.takeWhile (fun c => !(c == '/' || c == '?' || c == '#'))

/-- Split a character list at every occurrence of `c`. -/
def splitOnChar (c : Char) : List Char → List (List Char)
  | [] => [[]]
  | x :: xs =>
    match splitOnChar c xs with
    | [] => if x = c then [[], []] else [[x]]
    | y :: ys => if x = c then [] :: y :: ys else (x :: y) :: ys

/-- Modelled from the spec: the dot-separated labels of the host part of
the input, after stripping scheme, path and query. -/
def hostLabels (s : String) : List String :=
  (splitOnChar '.' (hostChars (dropScheme s.data))).map (fun l => String.mk l)

/-- Modelled from the spec: the registered-domain labels (eTLD+1): the
longest label suffix found in the public-suffix list, with the one label
immediately before it prepended; `none` when no suffix matches or no
label precedes the matched suffix. -/
def regLabels (psl : List (List String)) : List String → Option (List String)
  | [] => none
  | l :: rest =>
    if l :: rest ∈ psl then none
    else if rest ∈ psl then some (l :: rest)
    else regLabels psl rest

/-- Join strings with a separator between consecutive elements. -/
def joinSep (sep : String) : List String → String
  | [] => ""
  | [x] => x
  | x :: xs => x ++ sep ++ joinSep sep xs

/-- Modelled from the spec: extract the registered domain (eTLD+1) with
respect to a given public-suffix list, returning `""` on failure rather
than raising. -/
def domainExtractPSL (psl : List (List String)) (s : String) : String :=
  match regLabels psl (hostLabels s) with
  | none => ""
  | some ls => joinSep "." ls

/-- Modelled from the spec: the static, bundled public-suffix list (a
representative fragment with both single-label and multi-label
suffixes). -/
def publicSuffixList : List (List String) :=
  [["com"], ["net"], ["org"], ["io"], ["gov"], ["edu"], ["uk"], ["co", "uk"]]

/-- Modelled from the spec: the `domain_extract` user-defined function of
`00_Shared_Include`, instantiated at the bundled public-suffix list. -/
def domain_extract (s : String) : String :=
  domainExtractPSL publicSuffixList s

/-! ### pDNS records and the Bronze Loader

The pDNS schema is declared explicitly (`pdns_schema`): nullable fields
`rrname, rrtype : string`, `time_first, time_last, count : long`,
`bailiwick : string`, `rdata : array<string>`. The loader adds
`rdatastr = concat_ws(",", rdata)`. -/

/-- A pDNS record as read against `pdns_schema`; every field is nullable,
and `rdata` is a nullable array of nullable strings. -/
structure PDNSRecord where
  rrname : Option String
  rrtype : Option String
  time_first : Option Int
  time_last : Option Int
  count : Option Int
  bailiwick : Option String
  rdata : Option (List (Option String))
deriving DecidableEq

/-- Spark `concat_ws` applied to a separator and one array column: null
elements are skipped, and a null array yields the empty string (the
result of `concat_ws` is never null when the separator is not null). -/
def concat_ws (sep : String) (arr : Option (List (Option String))) : String :=
  match arr with
  | none => ""
  | some l => joinSep sep (l.filterMap id)

/-- A row of `df_enhanced`: the pDNS record plus the derived `rdatastr`
column. -/
structure PDNSRow extends PDNSRecord where
  rdatastr : String
deriving DecidableEq

/-- The derived column of line 109:
`df.withColumn("rdatastr", concat_ws(",", col("rdata")))`. -/
def enhance (r : PDNSRecord) : PDNSRow :=
  { r with rdatastr := concat_ws "," r.rdata }

/-- The column names of `pdns_schema`. -/
def pdns_schema : List String :=
  ["rrname", "rrtype", "time_first", "time_last", "count", "bailiwick", "rdata"]

/-- The column names of `df_enhanced`: the pDNS schema plus `rdatastr`. -/
def pdnsEnhancedSchema : List String :=
  pdns_schema ++ ["rdatastr"]

/-- Modelled from the spec: `spark.read.format("json").schema(...)` is a
primitive of the external engine (out of scope per the spec); each line of
the newline-delimited JSON input yields at most one record, `none`
standing for a malformed line. -/
def readPDNS (parse : String → Option PDNSRecord) (lines : List String) : List PDNSRecord :=
  lines.filterMap parse

/-! ### Delta tables and write configurations -/

/-- A named Delta table: a schema (list of column names) and row
contents. -/
structure DeltaTable (α : Type) where
  schema : List String
  rows : List α
deriving DecidableEq

/-- Delta schema merge: existing columns keep their place, columns new to
the table are appended. -/
def mergeSchemas (old new_ : List String) : List String :=
  old ++ new_.filter (fun c => !(old.contains c))

/-- The options given to a `DataFrameWriter`: format, save mode and the
`mergeSchema` option. -/
structure WriteConfig where
  format : String
  mode : String
  mergeSchema : Bool
deriving DecidableEq

/-- Writing a dataframe with the given configuration, as in
`df.write.format(...).mode(...).option("mergeSchema", ...).saveAsTable(...)`:
overwrite mode replaces the rows,
otherwise rows are appended; the schema merges with the table schema
exactly when `mergeSchema` is set. -/
def writeWith (cfg : WriteConfig) (t : DeltaTable α) (inSchema : List String) (inRows : List α) : DeltaTable α :=
  { schema := if cfg.mergeSchema then mergeSchemas t.schema inSchema else inSchema
    rows := if cfg.mode = "overwrite" then inRows else t.rows ++ inRows }

/-- Line 116: `format("delta").mode("overwrite").option("mergeSchema", "true")`. -/
def bronzeWriteConfig : WriteConfig :=
  { format := "delta", mode := "overwrite", mergeSchema := true }

/-- Lines 150-155 of the source: delta format, overwrite mode, option
mergeSchema set to True. -/
def threatWriteConfig : WriteConfig :=
  { format := "delta", mode := "overwrite", mergeSchema := true }

/-- Lines 210-215 of the source: delta format, overwrite mode, option
mergeSchema set to False. -/
def brandWriteConfig : WriteConfig :=
  { format := "delta", mode := "overwrite", mergeSchema := false }

/-- One run of the Bronze Loader against a prior state of `bronze_dns`:
enhance every input record and write with the bronze configuration. -/
def bronzeRun (t : DeltaTable PDNSRow) (input : List PDNSRecord) : DeltaTable PDNSRow :=
  writeWith bronzeWriteConfig t pdnsEnhancedSchema (input.map enhance)

/-! ### The two enrichers

CSV rows are finite column-name/value association lists with nullable
string values, as produced by `spark.read.csv(..., header=True)`. -/

/-- A CSV-derived row: ordered column-name/value pairs, values nullable. -/
abbrev Row := List (String × Option String)

/-- The value of column `c` in row `r`: null when the column is absent or
holds null. -/
def getCol (r : Row) (c : String) : Option String :=
  match r.find? (fun p => p.1 == c) with
  | none => none
  | some p => p.2

/-- The filter predicate `char_length(c) >= 2`: a null value compares to
null, which does not satisfy the filter. -/
def keepRow (c : String) (r : Row) : Bool :=
  match getCol r c with
  | none => false
  | some v => decide (2 ≤ v.length)

/-- The projection `select *, domain_extract(url) as domain` applied to
one row. -/
def enrichThreat (r : Row) : Row :=
  r ++ [("domain", (getCol r "url").map domain_extract)]

/-- Lines 140-143: the enriched threat feed, filtered on
`char_length(domain) >= 2`. -/
def threat_feeds_enriched (rows : List Row) : List Row :=
  (rows.map enrichThreat).filter (keepRow "domain")

/-- The projection `select *, domain_extract(domain) as dnstwisted_domain`
applied to one row. -/
def enrichBrand (r : Row) : Row :=
  r ++ [("dnstwisted_domain", (getCol r "domain").map domain_extract)]

/-- Lines 201-204: the enriched brand-monitoring candidates, filtered on
`char_length(dnstwisted_domain) >= 2`. -/
def brand_domains_monitored_enriched (rows : List Row) : List Row :=
  (rows.map enrichBrand).filter (keepRow "dnstwisted_domain")

/-- One run of the Threat-Feed Enricher: input header and rows from
`ThreatDataFeed.txt`, written with the threat-feed configuration. -/
def threatRun (t : DeltaTable Row) (header : List String) (input : List Row) : DeltaTable Row :=
  writeWith threatWriteConfig t (header ++ ["domain"]) (threat_feeds_enriched input)

/-- One run of the Brand-Twist Enricher: input header and rows from
`domains_dnstwists.csv`, written with the brand configuration. -/
def brandRun (t : DeltaTable Row) (header : List String) (input : List Row) : DeltaTable Row :=
  writeWith brandWriteConfig t (header ++ ["dnstwisted_domain"]) (brand_domains_monitored_enriched input)

/-! ### Concrete records used as witnesses and counterexamples -/

/-- A sample pDNS record, as in the bronze input. -/
def recA : PDNSRecord :=
  { rrname := some "a.example.com", rrtype := some "A", time_first := some 1602416136
    time_last := some 1602416336, count := some 3, bailiwick := some "example.com."
    rdata := some [some "1.2.3.4"] }

/-- A second sample pDNS record, distinct from `recA`. -/
def recB : PDNSRecord :=
  { rrname := some "b.example.com", rrtype := some "A", time_first := some 1602416137
    time_last := some 1602416337, count := some 5, bailiwick := some "example.com."
    rdata := some [some "5.6.7.8"] }

/-- A pDNS record whose `rdata` holds two answers, as in the spec
scenario. -/
def recC : PDNSRecord :=
  { rrname := some "c.example.com", rrtype := some "A", time_first := some 1602416138
    time_last := some 1602416338, count := some 2, bailiwick := some "example.com."
    rdata := some [some "1.2.3.4", some "5.6.7.8"] }

/-- A pDNS record with a null `rdata` array. -/
def recNull : PDNSRecord :=
  { rrname := some "n.example.com", rrtype := some "NS", time_first := some 1602416139
    time_last := some 1602416339, count := some 1, bailiwick := some "example.com."
    rdata := none }

/-- A pDNS record with an empty `rdata` array. -/
def recEmpty : PDNSRecord :=
  { rrname := some "e.example.com", rrtype := some "NS", time_first := some 1602416140
    time_last := some 1602416340, count := some 1, bailiwick := some "example.com."
    rdata := some [] }

/-- The `bronze_dns` table before any run. -/
def emptyBronze : DeltaTable PDNSRow :=
  { schema := [], rows := [] }

/-- The `bronze_dns` table after a first run whose input held only
`recA`. -/
def bronzeAfterA : DeltaTable PDNSRow :=
  bronzeRun emptyBronze [recA]

/-- A brand-monitoring row whose candidate domain is the single character
`a`, as in the spec scenario. -/
def rowShort : Row :=
  [("PERMUTATIONTYPE", some "addition"), ("domain", some "a"), ("meta", some "x")]

/-- A brand-monitoring row whose candidate domain is `googlea.com`, as in
the spec scenario. -/
def rowGood : Row :=
  [("PERMUTATIONTYPE", some "addition"), ("domain", some "googlea.com")
  , ("meta", some "184.168.131.241 NS:ns65.domaincontrol.com")]

/-- A threat-feed row with a URL column, as in `ThreatDataFeed.txt`. -/
def rowUrl : Row :=
  [("url", some "http://bad-example.co.uk/path?x=1"), ("threat", some "malware_download")]

/-! ### Helper lemmas -/

/-- Schema merge is idempotent: merging the same incoming schema a second
time adds nothing. -/
theorem mergeSchemas_idem (a b : List String) :
    mergeSchemas (mergeSchemas a b) b = mergeSchemas a b := by
  unfold mergeSchemas
  have h : (b.filter fun c => !((a ++ b.filter fun c => !(a.contains c)).contains c)) = [] := by
    rw [List.filter_eq_nil_iff]
    intro c hc
    simp [List.mem_filter, hc]
  rw [h, List.append_nil]

/-- A column just appended to a row is found by `getCol` when its name is
fresh in the row. -/
theorem getCol_append_self (r : Row) (c : String) (v : Option String)
    (hfresh : c ∉ r.map Prod.fst) :
    getCol (r ++ [(c, v)]) c = v := by
  unfold getCol
  rw [List.find?_append]
  have h1 : List.find? (fun p => p.1 == c) r = none := by
    rw [List.find?_eq_none]
    intro p hp h
    apply hfresh
    rw [beq_iff_eq] at h
    exact h ▸ List.mem_map_of_mem Prod.fst hp
  rw [h1]
  simp [List.find?]

/-- The curated filter applied to a row extended with a freshly named
extraction column tests exactly the length of the extracted value. -/
theorem keepRow_append_extract (r : Row) (src new_ : String) (v : String)
    (hv : getCol r src = some v) (hfresh : new_ ∉ r.map Prod.fst) :
    keepRow new_ (r ++ [(new_, (getCol r src).map domain_extract)]) =
      decide (2 ≤ (domain_extract v).length) := by
  unfold keepRow
  rw [getCol_append_self r new_ _ hfresh, hv]
  rfl

/-- A filterMap keeps every element when the function succeeds on all of
them. -/
theorem length_filterMap_of_isSome {α β : Type} (f : α → Option β) :
    ∀ l : List α, (∀ x ∈ l, (f x).isSome) → (l.filterMap f).length = l.length := by
  intro l
  induction l with
  | nil => intro _; rfl
  | cons x xs ih =>
    intro h
    have hx : (f x).isSome := h x (List.mem_cons_self x xs)
    obtain ⟨b, hb⟩ := Option.isSome_iff_exists.mp hx
    rw [List.filterMap_cons, hb]
    simp only [List.length_cons]
    rw [ih (fun y hy => h y (List.mem_cons_of_mem x hy))]

/-- Any successful result of `regLabels` is one label prepended to a
suffix drawn from the public-suffix list. -/
theorem regLabels_some (psl : List (List String)) :
    ∀ labels ls : List String, regLabels psl labels = some ls →
      ∃ x rest, ls = x :: rest ∧ rest ∈ psl := by
  intro labels
  induction labels with
  | nil =>
    intro ls h
    exact absurd h (by simp [regLabels])
  | cons l rest ih =>
    intro ls h
    unfold regLabels at h
    by_cases h1 : l :: rest ∈ psl
    · rw [if_pos h1] at h
      exact absurd h (by simp)
    · rw [if_neg h1] at h
      by_cases h2 : rest ∈ psl
      · rw [if_pos h2] at h
        injection h with h
        exact ⟨l, rest, h.symm, h2⟩
      · rw [if_neg h2] at h
        exact ih ls h

/-! ### Claims -/

/-- C3 counterexample: the Bronze Loader does not append. After a run that
loaded `recA` and a second run whose input holds only `recB`, the row for
`recA` is gone from the raw table, refuting `leaving all rows written by
earlier runs present in the table`. -/
theorem bronze_not_append_counterexample :
    enhance recA ∈ bronzeAfterA.rows
    ∧ enhance recA ∉ (bronzeRun bronzeAfterA [recB]).rows := by
  decide

/-- C3 (amended): a run of the Bronze Loader overwrites the raw pDNS
table: the final rows are exactly the current input enhanced, so rows
written by earlier runs are retained only if re-derived from the current
input. -/
theorem bronze_overwrite_rows (t : DeltaTable PDNSRow) (input : List PDNSRecord) :
    (bronzeRun t input).rows = input.map enhance := by
  simp [bronzeRun, writeWith, bronzeWriteConfig]

/-- C4: each of the three loaders is idempotent in the final table state:
a rerun on identical input leaves both contents and schema identical. -/
theorem loaders_idempotent (t1 : DeltaTable PDNSRow) (input1 : List PDNSRecord)
    (t2 t3 : DeltaTable Row) (h2 h3 : List String) (in2 in3 : List Row) :
    bronzeRun (bronzeRun t1 input1) input1 = bronzeRun t1 input1
    ∧ threatRun (threatRun t2 h2 in2) h2 in2 = threatRun t2 h2 in2
    ∧ brandRun (brandRun t3 h3 in3) h3 in3 = brandRun t3 h3 in3 := by
  refine ⟨?_, ?_, ?_⟩ <;>
    simp [bronzeRun, threatRun, brandRun, writeWith, bronzeWriteConfig, threatWriteConfig,
      brandWriteConfig, mergeSchemas_idem]

/-- C5: the derived `rdatastr` equals the `rdata` values joined in order
with single commas and no escaping. -/
theorem rdatastr_joins_rdata (r : PDNSRecord) (vs : List String)
    (h : r.rdata = some (vs.map some)) :
    (enhance r).rdatastr = joinSep "," vs := by
  show concat_ws "," r.rdata = joinSep "," vs
  rw [h]
  simp [concat_ws, List.filterMap_map, Function.comp, List.filterMap_some]

/-- C5 witness: the spec scenario, `rdata = ["1.2.3.4","5.6.7.8"]` gives
`rdatastr = "1.2.3.4,5.6.7.8"`. -/
theorem rdatastr_joins_rdata_witness :
    (enhance recC).rdatastr = "1.2.3.4,5.6.7.8" := by
  have h := rdatastr_joins_rdata recC ["1.2.3.4", "5.6.7.8"] (by decide)
  rw [h]
  decide

/-- C6: with no malformed lines, writing the raw table and reading it back
yields one row per input line. -/
theorem bronze_rowcount_eq_linecount (parse : String → Option PDNSRecord)
    (lines : List String) (t : DeltaTable PDNSRow)
    (h : ∀ l ∈ lines, (parse l).isSome) :
    (bronzeRun t (readPDNS parse lines)).rows.length = lines.length := by
  simp only [bronzeRun, writeWith, bronzeWriteConfig, readPDNS, if_pos, List.length_map]
  exact length_filterMap_of_isSome parse lines h

/-- C6 witness: a two-line input with a parser that succeeds on both lines
yields two rows. -/
theorem bronze_rowcount_eq_linecount_witness :
    (bronzeRun emptyBronze (readPDNS (fun _ => some recA) ["line one", "line two"])).rows.length
      = (["line one", "line two"] : List String).length :=
  bronze_rowcount_eq_linecount (fun _ => some recA) ["line one", "line two"] emptyBronze
    (fun _ _ => rfl)

/-- C8: the Threat-Feed Enricher writes a full overwrite (rows are exactly
the enriched feed) with schema-merge enabled (the table schema merges the
incoming one), while the Brand-Twist Enricher writes a full overwrite with
schema-merge disabled (the table schema is exactly the incoming one). -/
theorem enricher_write_modes (t2 t3 : DeltaTable Row) (h2 h3 : List String)
    (in2 in3 : List Row) :
    (threatRun t2 h2 in2).rows = threat_feeds_enriched in2
    ∧ (threatRun t2 h2 in2).schema = mergeSchemas t2.schema (h2 ++ ["domain"])
    ∧ (brandRun t3 h3 in3).rows = brand_domains_monitored_enriched in3
    ∧ (brandRun t3 h3 in3).schema = h3 ++ ["dnstwisted_domain"]
    ∧ threatWriteConfig.mode = "overwrite" ∧ threatWriteConfig.mergeSchema = true
    ∧ brandWriteConfig.mode = "overwrite" ∧ brandWriteConfig.mergeSchema = false := by
  refine ⟨?_, ?_, ?_, ?_, rfl, rfl, rfl, rfl⟩ <;>
    simp [threatRun, brandRun, writeWith, threatWriteConfig, brandWriteConfig]

/-- C10: a record with a missing or empty `rdata` still yields a row, and
its `rdatastr` is the empty string, not null or an error. -/
theorem empty_rdata_yields_empty_rdatastr (t : DeltaTable PDNSRow) (r : PDNSRecord)
    (h : r.rdata = none ∨ r.rdata = some []) :
    (bronzeRun t [r]).rows = [enhance r] ∧ (enhance r).rdatastr = "" := by
  constructor
  · simp [bronzeRun, writeWith, bronzeWriteConfig]
  · show concat_ws "," r.rdata = ""
    rcases h with h | h <;> rw [h] <;> rfl

/-- C10 witness: both the null-`rdata` and the empty-`rdata` record
produce a row with empty `rdatastr`. -/
theorem empty_rdata_yields_empty_rdatastr_witness :
    ((bronzeRun emptyBronze [recNull]).rows = [enhance recNull]
      ∧ (enhance recNull).rdatastr = "")
    ∧ (enhance recEmpty).rdatastr = "" :=
  ⟨empty_rdata_yields_empty_rdatastr emptyBronze recNull (Or.inl rfl),
   (empty_rdata_yields_empty_rdatastr emptyBronze recEmpty (Or.inr rfl)).2⟩

/-- C1: in both enrichers, a row whose extracted value is shorter than 2
characters is excluded from the curated output, and every row whose
extracted value has length at least 2 is retained. -/
theorem enricher_length_filter (rows : List Row) (r : Row) :
    (∀ u, getCol r "url" = some u → "domain" ∉ r.map Prod.fst →
      (((domain_extract u).length < 2 → enrichThreat r ∉ threat_feeds_enriched rows)
        ∧ (2 ≤ (domain_extract u).length → r ∈ rows →
            enrichThreat r ∈ threat_feeds_enriched rows)))
    ∧ (∀ d, getCol r "domain" = some d → "dnstwisted_domain" ∉ r.map Prod.fst →
      (((domain_extract d).length < 2 → enrichBrand r ∉ brand_domains_monitored_enriched rows)
        ∧ (2 ≤ (domain_extract d).length → r ∈ rows →
            enrichBrand r ∈ brand_domains_monitored_enriched rows))) := by
  constructor
  · intro u hu hfresh
    have hkeep : keepRow "domain" (enrichThreat r) = decide (2 ≤ (domain_extract u).length) :=
      keepRow_append_extract r "url" "domain" u hu hfresh
    constructor
    · intro hlt hmem
      have h2 := (List.mem_filter.mp hmem).2
      rw [hkeep] at h2
      have := of_decide_eq_true h2
      omega
    · intro hge hr
      refine List.mem_filter.mpr ⟨List.mem_map_of_mem enrichThreat hr, ?_⟩
      rw [hkeep]
      exact decide_eq_true hge
  · intro d hd hfresh
    have hkeep : keepRow "dnstwisted_domain" (enrichBrand r) =
        decide (2 ≤ (domain_extract d).length) :=
      keepRow_append_extract r "domain" "dnstwisted_domain" d hd hfresh
    constructor
    · intro hlt hmem
      have h2 := (List.mem_filter.mp hmem).2
      rw [hkeep] at h2
      have := of_decide_eq_true h2
      omega
    · intro hge hr
      refine List.mem_filter.mpr ⟨List.mem_map_of_mem enrichBrand hr, ?_⟩
      rw [hkeep]
      exact decide_eq_true hge

/-- C1 witness: the spec scenarios. Candidate domain `a` extracts to a
value of length 0, so its row is dropped; candidate `googlea.com`
extracts to `googlea.com` of length 11, so its row is retained. -/
theorem enricher_length_filter_witness :
    enrichBrand rowShort ∉ brand_domains_monitored_enriched [rowShort, rowGood]
    ∧ enrichBrand rowGood ∈ brand_domains_monitored_enriched [rowShort, rowGood] :=
  ⟨((enricher_length_filter [rowShort, rowGood] rowShort).2 "a"
      (by decide) (by decide)).1 (by decide),
   ((enricher_length_filter [rowShort, rowGood] rowGood).2 "googlea.com"
      (by decide) (by decide)).2 (by decide) (by decide)⟩

/-- When the labels split as an arbitrary subdomain part, one label, and
a listed suffix, and no strictly longer tail of the labels is itself
listed, `regLabels` returns exactly that one label prepended to the
suffix. The longest-match side conditions range over the tails strictly
longer than the suffix, indexed by how many leading labels are
dropped. -/
theorem regLabels_longest (psl : List (List String)) (pre : List String)
    (l : String) (S : List String) (hS : S ∈ psl)
    (hno : ∀ i, i ≤ pre.length → (pre ++ l :: S).drop i ∉ psl) :
    regLabels psl (pre ++ l :: S) = some (l :: S) := by
  induction pre with
  | nil =>
    have h0 : l :: S ∉ psl := by
      have := hno 0 (Nat.le_refl 0)
      simpa using this
    simp only [List.nil_append]
    unfold regLabels
    rw [if_neg h0, if_pos hS]
  | cons p ps ih =>
    have h0 : p :: (ps ++ l :: S) ∉ psl := by
      have := hno 0 (Nat.zero_le _)
      simpa using this
    have h1 : ps ++ l :: S ∉ psl := by
      have := hno 1 (by simp)
      simpa using this
    show regLabels psl (p :: (ps ++ l :: S)) = some (l :: S)
    unfold regLabels
    rw [if_neg h0, if_neg h1]
    refine ih (fun i hi => ?_)
    have := hno (i + 1) (by simpa using Nat.succ_le_succ hi)
    simpa [List.drop_succ_cons] using this

/-- C2: for every hostname whose labels are some subdomain labels, one
label, and a public suffix drawn from the public-suffix list (and no
strictly longer tail of the labels is listed, so that suffix is the
public suffix of the hostname), the extractor returns the registered
domain: exactly one label prepended to the suffix, the subdomain part
dropped, and scheme, path and query stripped by `hostLabels`. -/
theorem domain_extract_registered (psl : List (List String)) (s : String)
    (pre : List String) (l : String) (S : List String)
    (hhost : hostLabels s = pre ++ l :: S) (hS : S ∈ psl)
    (hno : ∀ i, i ≤ pre.length → (pre ++ l :: S).drop i ∉ psl)
    (hSne : S ≠ []) :
    domainExtractPSL psl s = joinSep "." (l :: S)
    ∧ domainExtractPSL psl s = l ++ "." ++ joinSep "." S := by
  have h1 : domainExtractPSL psl s = joinSep "." (l :: S) := by
    unfold domainExtractPSL
    rw [hhost, regLabels_longest psl pre l S hS hno]
  refine ⟨h1, ?_⟩
  rw [h1]
  cases S with
  | nil => exact absurd rfl hSne
  | cons b t => rfl

/-- C2 witness: the spec scenario,
`domain_extract "http://bad-example.co.uk/path?x=1" = "bad-example.co.uk"`
(no subdomain labels), and a subdomained hostname,
`domain_extract "www.bad-example.co.uk" = "bad-example.co.uk"`, both with
suffix `co.uk` from the public-suffix list and the one label
`bad-example` prepended. -/
theorem domain_extract_registered_witness :
    domain_extract "http://bad-example.co.uk/path?x=1" = "bad-example.co.uk"
    ∧ domain_extract "www.bad-example.co.uk" = "bad-example.co.uk" := by
  constructor
  · have h := (domain_extract_registered publicSuffixList
      "http://bad-example.co.uk/path?x=1" [] "bad-example" ["co", "uk"]
      (by decide) (by decide) (by decide) (by decide)).1
    show domainExtractPSL publicSuffixList "http://bad-example.co.uk/path?x=1" = _
    rw [h]
    decide
  · have h := (domain_extract_registered publicSuffixList
      "www.bad-example.co.uk" ["www"] "bad-example" ["co", "uk"]
      (by decide) (by decide) (by decide) (by decide)).1
    show domainExtractPSL publicSuffixList "www.bad-example.co.uk" = _
    rw [h]
    decide

/-- C7: the extractor is a total function on strings (it cannot raise in
this model), and a failed extraction surfaces only as a value of length
below 2: every result is either the empty string or a string of length at
least 2, so the downstream length filter discards exactly the failures. -/
theorem domain_extract_total_or_degenerate (s : String) :
    domain_extract s = "" ∨ 2 ≤ (domain_extract s).length := by
  unfold domain_extract domainExtractPSL
  cases hreg : regLabels publicSuffixList (hostLabels s) with
  | none => exact Or.inl rfl
  | some ls =>
    right
    obtain ⟨x, rest, hls, hrest⟩ := regLabels_some publicSuffixList (hostLabels s) ls hreg
    subst hls
    have hall : ∀ q ∈ publicSuffixList, q ≠ [] ∧ 1 ≤ (joinSep "." q).length := by decide
    obtain ⟨hne, hlen⟩ := hall rest hrest
    cases rest with
    | nil => exact absurd rfl hne
    | cons b t =>
      have hjoin : joinSep "." (x :: b :: t) = x ++ "." ++ joinSep "." (b :: t) := rfl
      have hdot : ("." : String).length = 1 := rfl
      simp only [hjoin, String.length_append]
      omega

/-- C9: every curated row of either enricher is its source row with every
column and value preserved unchanged, extended by exactly one new column
holding the extracted value (`domain` from `url`, resp.
`dnstwisted_domain` from `domain`). -/
theorem enricher_preserves_row (rows : List Row) (out : Row) :
    (out ∈ threat_feeds_enriched rows →
      ∃ r, r ∈ rows ∧ out = r ++ [("domain", (getCol r "url").map domain_extract)])
    ∧ (out ∈ brand_domains_monitored_enriched rows →
      ∃ r, r ∈ rows ∧
        out = r ++ [("dnstwisted_domain", (getCol r "domain").map domain_extract)]) := by
  constructor
  · intro hmem
    obtain ⟨r, hr, hout⟩ := List.mem_map.mp (List.mem_filter.mp hmem).1
    exact ⟨r, hr, by rw [← hout]; rfl⟩
  · intro hmem
    obtain ⟨r, hr, hout⟩ := List.mem_map.mp (List.mem_filter.mp hmem).1
    exact ⟨r, hr, by rw [← hout]; rfl⟩

/-- C9 witness: the curated image of the sample threat-feed row is that
row unchanged plus the single `domain` column. -/
theorem enricher_preserves_row_witness :
    ∃ r, r ∈ [rowUrl]
      ∧ enrichThreat rowUrl = r ++ [("domain", (getCol r "url").map domain_extract)] :=
  (enricher_preserves_row [rowUrl] (enrichThreat rowUrl)).1 (by decide)

end DNSAnalytics
